import Mathlib
set_option maxRecDepth 8000

/-!
Verification development for the voxtext transcription worker
(`voxtext_win.py`, class `TranscriptionWorker`).

The Python source is shallowly embedded:
* Python floats are modelled by `ℚ`; `int(x)` on the non-negative values
  that occur here is `Int.floor`, `a % b` (positive divisor) is
  `pymod a b = a - b * ⌊a / b⌋`, and `a // b` is `⌊a / b⌋`.
* The Qt signals `progress`, `finished`, `error` become an `Event` list
  returned by the pure function `run`.
* The cooperative cancellation flag is modelled by a schedule
  `cancel : Nat → Bool` giving the value returned by the n-th read of
  `self.cancelled`; `run` also reports how many reads it performed.
* `whisper.load_model` (first with certificate verification on, then on
  retry with it relaxed) is an oracle `load : Bool → Except PyErr Unit`
  whose argument is "verification relaxed"; `model.transcribe` is an
  oracle `Except PyErr TranscriptionResult`.
* File writes are modelled by the exporter functions returning the exact
  text written; `json.dump`/`json.load` of the external `json` library
  are modelled by the `JsonVal` syntax tree of the dumped dictionary.
-/

namespace Voxtext

/-- Python `a % b` for rationals (positive divisor in all uses here). -/
def pymod (a b : ℚ) : ℚ := a - b * ⌊a / b⌋

/-- Python `f"{n:02d}"` for non-negative `n`. -/
def pad2 (n : Nat) : String :=
  if n < 10 then "0" ++ toString n else toString n

/-- Python `f"{n:03d}"` for non-negative `n`. -/
def pad3 (n : Nat) : String :=
  if n < 10 then "00" ++ toString n
  else if n < 100 then "0" ++ toString n
  else toString n

/-- `prefixCheck p s` decides whether `p` is a prefix of `s`. -/
def prefixCheck : List Char → List Char → Bool
  | [], _ => true
  | _ :: _, [] => false
  | a :: as, b :: bs => a == b && prefixCheck as bs

/-- `substrCheck p s` decides whether `p` occurs inside `s`. -/
def substrCheck (p : List Char) : List Char → Bool
  | [] => prefixCheck p []
  | c :: rest => prefixCheck p (c :: rest) || substrCheck p rest

/-- Python `pat in s` on strings. -/
def containsSubstr (s pat : String) : Bool :=
  substrCheck pat.toList s.toList

/-- Drop leading whitespace characters. -/
def dropLeading : List Char → List Char
  | [] => []
  | c :: rest => if c.isWhitespace then dropLeading rest else c :: rest

/-- Python `s.strip()`: remove leading and trailing whitespace. -/
def pyStrip (s : String) : String :=
  String.mk ((dropLeading ((dropLeading s.data).reverse)).reverse)

/-- `hours = int(seconds // 3600)` of `_format_timestamp`. -/
def ts_hours (seconds : ℚ) : ℤ := ⌊seconds / 3600⌋

/-- `minutes = int((seconds % 3600) // 60)` of `_format_timestamp`. -/
def ts_minutes (seconds : ℚ) : ℤ := ⌊pymod seconds 3600 / 60⌋

/-- `secs = int(seconds % 60)` of `_format_timestamp`. -/
def ts_secs (seconds : ℚ) : ℤ := ⌊pymod seconds 60⌋

/-- `millisecs = int((seconds % 1) * 1000)` of `_format_timestamp`. -/
def ts_millis (seconds : ℚ) : ℤ := ⌊pymod seconds 1 * 1000⌋

/-- `TranscriptionWorker._format_timestamp` (source lines 299-306). -/
def format_timestamp (seconds : ℚ) (use_comma : Bool) : String :=
  let separator := if use_comma then "," else "."
  pad2 (ts_hours seconds).toNat ++ ":" ++ pad2 (ts_minutes seconds).toNat ++ ":"
    ++ pad2 (ts_secs seconds).toNat ++ separator ++ pad3 (ts_millis seconds).toNat

/-- JSON values, modelling the dictionaries handled by the `json` library. -/
inductive JsonVal where
  | null
  | bool (b : Bool)
  | num (q : ℚ)
  | str (s : String)
  | arr (elems : List JsonVal)
  | obj (fields : List (String × JsonVal))

/-- One whisper segment: the fields the worker reads (`start`, `end`,
`text`) plus the remaining fields of the raw segment dictionary. -/
structure Segment where
  start : ℚ
  stop : ℚ
  text : String
  extra : List (String × JsonVal)

/-- The whisper result dictionary: full text plus the segment list. -/
structure TranscriptionResult where
  text : String
  segments : List Segment

/-- The `lms_settings` dictionary handed to the worker. -/
structure LmsSettings where
  enabled : Bool
  cue_settings : String
  css : String

/-- Concatenation of a list of written chunks. -/
def catList : List String → String
  | [] => ""
  | s :: rest => s ++ catList rest

/-- One SRT cue block: index line, timestamp line, trimmed text, blank line. -/
def srt_cue (i : Nat) (seg : Segment) : String :=
  toString i ++ "\n" ++ format_timestamp seg.start true ++ " --> "
    ++ format_timestamp seg.stop true ++ "\n" ++ pyStrip seg.text ++ "\n\n"

/-- SRT cue blocks for the segments, numbered from `i`. -/
def srt_cues : Nat → List Segment → String
  | _, [] => ""
  | i, seg :: rest => srt_cue i seg ++ srt_cues (i + 1) rest

/-- `TranscriptionWorker._write_srt` (source lines 231-240): the text
written to the output file, built with `enumerate(..., start=1)`. -/
def write_srt (result : TranscriptionResult) : String :=
  (result.segments.foldl
    (fun (st : Nat × String) seg =>
      (st.1 + 1,
        st.2 ++ (toString st.1 ++ "\n" ++ format_timestamp seg.start true ++ " --> "
          ++ format_timestamp seg.stop true ++ "\n" ++ pyStrip seg.text ++ "\n\n")))
    (1, "")).2

/-- The STYLE section `_write_vtt` emits after the header. -/
def vtt_style_block (lms : LmsSettings) : String :=
  if lms.enabled = true ∧ pyStrip lms.css ≠ "" then "\nSTYLE\n" ++ pyStrip lms.css ++ "\n"
  else ""

/-- The cue-settings suffix `_write_vtt` appends to every timestamp line. -/
def vtt_cue_suffix (lms : LmsSettings) : String :=
  if lms.enabled = true ∧ pyStrip lms.cue_settings ≠ "" then " " ++ pyStrip lms.cue_settings
  else ""

/-- One WebVTT cue block with the given timestamp-line suffix. -/
def vtt_cue_block (cue : String) (seg : Segment) : String :=
  format_timestamp seg.start false ++ " --> " ++ format_timestamp seg.stop false
    ++ cue ++ "\n" ++ pyStrip seg.text ++ "\n\n"

/-- WebVTT cue blocks for the segments, in order. -/
def vtt_cues (cue : String) : List Segment → String
  | [] => ""
  | seg :: rest => vtt_cue_block cue seg ++ vtt_cues cue rest

/-- `TranscriptionWorker._write_vtt` (source lines 242-269): the text
written to the output file, transcribing each `f.write` in order. -/
def write_vtt (result : TranscriptionResult) (lms : LmsSettings) : String :=
  let out := "WEBVTT\n"
  let out :=
    if lms.enabled = true then
      let css_content := pyStrip lms.css
      if css_content ≠ "" then out ++ ("\nSTYLE\n" ++ css_content ++ "\n") else out
    else out
  let out := out ++ "\n"
  let cue_settings :=
    if lms.enabled = true then
      let c := pyStrip lms.cue_settings
      if c ≠ "" then " " ++ c else ""
    else ""
  result.segments.foldl
    (fun acc seg =>
      acc ++ (format_timestamp seg.start false ++ " --> " ++ format_timestamp seg.stop false
        ++ cue_settings ++ "\n" ++ pyStrip seg.text ++ "\n\n"))
    out

/-- `TranscriptionWorker._write_html` (source lines 271-284). -/
def write_html (result : TranscriptionResult) : String :=
  "<h3>Full Transcript</h3>\n<details>\n<summary>Click to expand transcript</summary>\n\n"
    ++ result.text
    ++ "\n\n</details>\n\n<p><em>Transcribed with Voxtext using OpenAI Whisper</em></p>"

/-- `TranscriptionWorker._write_markdown` (source lines 286-297). -/
def write_markdown (result : TranscriptionResult) : String :=
  "# Transcript\n\n" ++ result.text
    ++ "\n\n---\n\n*Transcribed with Voxtext using OpenAI Whisper*\n"

/-- The dictionary of one raw segment as handed to `json.dump`: the
`start`/`end`/`text` fields together with every remaining raw field. -/
def encodeSegment (seg : Segment) : JsonVal :=
  .obj ([("start", .num seg.start), ("end", .num seg.stop), ("text", .str seg.text)]
    ++ seg.extra)

/-- The complete raw inference result dictionary serialized by
`json.dump(result, f, indent=2, ensure_ascii=False)` (source lines 198-203). -/
def encodeResult (r : TranscriptionResult) : JsonVal :=
  .obj [("text", .str r.text), ("segments", .arr (r.segments.map encodeSegment))]

/-- Key lookup in a parsed JSON object. -/
def jLookup : List (String × JsonVal) → String → Option JsonVal
  | [], _ => none
  | (k0, v) :: rest, k => if k0 = k then some v else jLookup rest k

/-- Reading one segment's `start`/`end`/`text` back from parsed JSON. -/
def decodeSegment : JsonVal → Option (ℚ × ℚ × String)
  | .obj kvs =>
    match jLookup kvs "start", jLookup kvs "end", jLookup kvs "text" with
    | some (.num a), some (.num b), some (.str t) => some (a, b, t)
    | _, _, _ => none
  | _ => none

/-- Reading every segment of a parsed JSON array. -/
def decodeSegments : List JsonVal → Option (List (ℚ × ℚ × String))
  | [] => some []
  | x :: xs =>
    match decodeSegment x, decodeSegments xs with
    | some p, some ps => some (p :: ps)
    | _, _ => none

/-- Reading the transcript text and the segment fields back from the
deserialized structured-data export. -/
def decodeResult : JsonVal → Option (String × List (ℚ × ℚ × String))
  | .obj kvs =>
    match jLookup kvs "text", jLookup kvs "segments" with
    | some (.str t), some (.arr xs) =>
      match decodeSegments xs with
      | some segs => some (t, segs)
      | none => none
    | _, _ => none
  | _ => none

/-- Classification of a Python exception reaching the worker's handlers. -/
inductive PyErrKind where
  | urlError
  | fileNotFound
  | other
deriving DecidableEq

/-- A raised Python exception: its class and its `str(e)` message. -/
structure PyErr where
  kind : PyErrKind
  msg : String
deriving DecidableEq

/-- The condition of source line 121: the exception is a
`urllib.error.URLError` whose text mentions `CERTIFICATE_VERIFY_FAILED`. -/
def isTrustFailure (e : PyErr) : Bool :=
  e.kind == PyErrKind.urlError && containsSubstr e.msg "CERTIFICATE_VERIFY_FAILED"

/-- The FFmpeg help text of source lines 214-223. -/
def ffmpegHelp : String :=
  "FFmpeg not found!\n\nWhisper requires FFmpeg to process audio/video files.\n\n"
    ++ "To install on Mac:\n  brew install ffmpeg\n\n"
    ++ "To install on Windows:\n  Download from ffmpeg.org\n\n"
    ++ "To install on Linux:\n  sudo apt install ffmpeg"

/-- The error message emitted by the handlers of source lines 211-229. -/
def classifyError (e : PyErr) : String :=
  if e.kind = PyErrKind.fileNotFound then
    if containsSubstr e.msg.toLower "ffmpeg" = true then ffmpegHelp else e.msg
  else e.msg

/-- The six output format identifiers. -/
inductive OutFormat where
  | txt
  | srt
  | vtt
  | html
  | md
  | json
deriving DecidableEq

/-- The checkbox key of a format, which is also its file extension. -/
def OutFormat.key : OutFormat → String
  | .txt => "txt"
  | .srt => "srt"
  | .vtt => "vtt"
  | .html => "html"
  | .md => "md"
  | .json => "json"

/-- The fixed order in which `run` tries the formats (source lines 152-206). -/
def formatOrder : List OutFormat :=
  [.txt, .srt, .vtt, .html, .md, .json]

/-- The immutable job parameters copied into the worker (source lines 96-104);
`base_path` is `Path(self.file_path).stem`. -/
structure Ctx where
  model_name : String
  output_formats : List String
  output_dir : String
  base_path : String
  lms : LmsSettings

/-- The three Qt signals of the worker. -/
inductive Event where
  | progress (message : String) (percentage : ℤ)
  | finished (created_files : List String)
  | error (message : String)
deriving DecidableEq

/-- Whether an event is terminal (Completed or Failed). -/
def isTerminal : Event → Bool
  | .progress _ _ => false
  | .finished _ => true
  | .error _ => true

/-- The first progress event (source line 116). -/
def loadingEvent (ctx : Ctx) : Event :=
  .progress ("Loading " ++ ctx.model_name ++ " model (first time downloads)...") 5

/-- The progress events emitted before the inference call returns. -/
def preEvents (ctx : Ctx) : List Event :=
  [loadingEvent ctx,
   .progress "Model loaded successfully." 10,
   .progress "Transcribing audio... This may take several minutes." 20]

/-- The progress event of source line 143. -/
def writingEvent : Event :=
  .progress "Transcription complete. Writing output files..." 80

/-- `f"{base_path}_transcript.{ext}"`, the artifact file name. -/
def pathName (ctx : Ctx) (f : OutFormat) : String :=
  ctx.base_path ++ "_transcript." ++ f.key

/-- `str(self.output_dir / name)`, the artifact path recorded in
`created_files`. -/
def fullPath (ctx : Ctx) (f : OutFormat) : String :=
  ctx.output_dir ++ "/" ++ pathName ctx f

/-- `progress_per_format = 15 / num_formats if num_formats > 0 else 15`
(source lines 148-149). -/
def progress_per_format (fmts : List String) : ℚ :=
  if fmts.length > 0 then 15 / (fmts.length : ℚ) else 15

/-- Model acquisition with the certificate-trust retry (source lines
118-125): the list of attempts made (argument passed to the `load`
oracle, `true` = verification relaxed) and the final outcome. -/
def attemptLoad (load : Bool → Except PyErr Unit) : List Bool × Except PyErr Unit :=
  match load false with
  | .ok u => ([false], .ok u)
  | .error e =>
    if isTrustFailure e = true then
      match load true with
      | .ok u => ([false, true], .ok u)
      | .error e2 => ([false, true], .error e2)
    else ([false], .error e)

/-- Result of the output-writing loop. -/
structure LoopOut where
  events : List Event
  created : List String
  reads : Nat
  stopped : Bool

/-- Result of one worker run: the emitted events and the number of reads
of `self.cancelled` that were performed. -/
structure RunOut where
  events : List Event
  reads : Nat

/-- The per-format blocks of source lines 152-206: for each format in
the fixed order, if it was requested, read the cancellation flag
(returning if set), write the file, bump the progress accumulator and
emit a `Created ...` progress event with the truncated percentage. -/
def writeLoop (ctx : Ctx) (cancel : Nat → Bool) :
    List OutFormat → Nat → ℚ → ℚ → List String → List Event → LoopOut
  | [], k, _, _, created, evs => ⟨evs, created, k, false⟩
  | f :: rest, k, ppf, cur, created, evs =>
    if f.key ∈ ctx.output_formats then
      if cancel k = true then ⟨evs, created, k + 1, true⟩
      else
        writeLoop ctx cancel rest (k + 1) ppf (cur + ppf) (created ++ [fullPath ctx f])
          (evs ++ [.progress ("Created " ++ pathName ctx f) ⌊cur + ppf⌋])
    else writeLoop ctx cancel rest k ppf cur created evs

/-- The state of the whole output-writing phase, entered with the flag
read three times, the progress accumulator at 80 and the events emitted
so far. -/
def loopOf (ctx : Ctx) (cancel : Nat → Bool) : LoopOut :=
  writeLoop ctx cancel formatOrder 3 (progress_per_format ctx.output_formats) 80 []
    (preEvents ctx ++ [writingEvent])

/-- `TranscriptionWorker.run` (source lines 106-229). -/
def run (ctx : Ctx) (load : Bool → Except PyErr Unit)
    (transcribe : Except PyErr TranscriptionResult) (cancel : Nat → Bool) : RunOut :=
  if cancel 0 = true then ⟨[], 1⟩
  else
    match (attemptLoad load).2 with
    | .error e =>
      if cancel 1 = true then ⟨[loadingEvent ctx], 2⟩
      else ⟨[loadingEvent ctx, .error (classifyError e)], 2⟩
    | .ok _ =>
      if cancel 1 = true then ⟨[loadingEvent ctx], 2⟩
      else
        match transcribe with
        | .error e =>
          if cancel 2 = true then ⟨preEvents ctx, 3⟩
          else ⟨preEvents ctx ++ [.error (classifyError e)], 3⟩
        | .ok _result =>
          if cancel 2 = true then ⟨preEvents ctx, 3⟩
          else
            let lo := loopOf ctx cancel
            if lo.stopped = true then ⟨lo.events, lo.reads⟩
            else if cancel lo.reads = true then ⟨lo.events, lo.reads + 1⟩
            else ⟨lo.events ++ [.finished lo.created], lo.reads + 1⟩

/-- The percentages carried by the progress events, in emission order. -/
def pcts (evs : List Event) : List ℤ :=
  evs.filterMap fun e =>
    match e with
    | .progress _ p => some p
    | _ => none

/-! Concrete fixtures used by the witness theorems. -/

/-- Styling disabled. -/
def lmsOff : LmsSettings := ⟨false, "", ""⟩

/-- A job requesting only the plain-text format. -/
def ctxTxt : Ctx := ⟨"medium", ["txt"], "/out", "audio", lmsOff⟩

/-- A job requesting subtitle and text formats in non-canonical order. -/
def ctxTwo : Ctx := ⟨"medium", ["srt", "txt"], "/out", "audio", lmsOff⟩

/-- A job with an empty requested-format list. -/
def ctxNone : Ctx := ⟨"medium", [], "/out", "audio", lmsOff⟩

/-- A one-segment inference result. -/
def resultW : TranscriptionResult := ⟨"hello world", [⟨0, 3/2, " hello ", []⟩]⟩

/-- A model provider that always succeeds. -/
def loadOk : Bool → Except PyErr Unit := fun _ => .ok ()

/-- A model provider failing with a trust-chain error on both attempts. -/
def loadTrustFail : Bool → Except PyErr Unit := fun b =>
  .error (if b then ⟨.urlError, "CERTIFICATE_VERIFY_FAILED retry"⟩
          else ⟨.urlError, "CERTIFICATE_VERIFY_FAILED first"⟩)

/-- The first trust-chain error raised by `loadTrustFail`. -/
def certErr : PyErr := ⟨.urlError, "CERTIFICATE_VERIFY_FAILED first"⟩

/-- An inference call returning `resultW`. -/
def trOk : Except PyErr TranscriptionResult := .ok resultW

/-- An inference call that is never reached or always fails. -/
def trErr : Except PyErr TranscriptionResult := .error ⟨.other, "inference failed"⟩

/-- A cancellation flag that is never set. -/
def cancelNone : Nat → Bool := fun _ => false

/-- A cancellation flag observed as set from the `m`-th read onwards. -/
def cancelFrom (m : Nat) : Nat → Bool := fun i => decide (m ≤ i)

/-! ### Auxiliary lemmas about the timestamp arithmetic -/

theorem pymod_nonneg (a b : ℚ) (hb : 0 < b) : 0 ≤ pymod a b := by
  have h : (⌊a / b⌋ : ℚ) ≤ a / b := Int.floor_le (a / b)
  have hba : b * (a / b) = a := by field_simp
  have h2 : b * (⌊a / b⌋ : ℚ) ≤ a := by
    have := mul_le_mul_of_nonneg_left h (le_of_lt hb)
    rwa [hba] at this
  unfold pymod
  linarith

theorem pymod_lt (a b : ℚ) (hb : 0 < b) : pymod a b < b := by
  have h : a / b < (⌊a / b⌋ : ℚ) + 1 := Int.lt_floor_add_one (a / b)
  have hba : b * (a / b) = a := by field_simp
  have h2 : a < b * ((⌊a / b⌋ : ℚ) + 1) := by
    have := mul_lt_mul_of_pos_left h hb
    rwa [hba] at this
  unfold pymod
  nlinarith

theorem ts_minutes_nonneg (q : ℚ) : 0 ≤ ts_minutes q :=
  Int.floor_nonneg.mpr (div_nonneg (pymod_nonneg q 3600 (by norm_num)) (by norm_num))

theorem ts_minutes_lt (q : ℚ) : ts_minutes q < 60 := by
  unfold ts_minutes
  rw [Int.floor_lt]
  have h := pymod_lt q 3600 (by norm_num)
  push_cast
  rw [div_lt_iff₀ (by norm_num : (0:ℚ) < 60)]
  linarith

theorem ts_secs_nonneg (q : ℚ) : 0 ≤ ts_secs q :=
  Int.floor_nonneg.mpr (pymod_nonneg q 60 (by norm_num))

theorem ts_secs_lt (q : ℚ) : ts_secs q < 60 := by
  unfold ts_secs
  rw [Int.floor_lt]
  have h := pymod_lt q 60 (by norm_num)
  push_cast
  linarith

theorem ts_millis_nonneg (q : ℚ) : 0 ≤ ts_millis q :=
  Int.floor_nonneg.mpr (mul_nonneg (pymod_nonneg q 1 one_pos) (by norm_num))

theorem ts_millis_lt (q : ℚ) : ts_millis q < 1000 := by
  unfold ts_millis
  rw [Int.floor_lt]
  have h := pymod_lt q 1 one_pos
  push_cast
  nlinarith

theorem pad2_length : ∀ n, n < 100 → (pad2 n).length = 2 := by decide

theorem pad3_length : ∀ n, n < 1000 → (pad3 n).length = 3 := by decide

theorem fmt_ex_comma : format_timestamp (36612505 / 10000 : ℚ) true = "01:01:01,250" := by
  have h1 : ts_hours (36612505 / 10000 : ℚ) = 1 := by norm_num [ts_hours]
  have h2 : ts_minutes (36612505 / 10000 : ℚ) = 1 := by norm_num [ts_minutes, pymod]
  have h3 : ts_secs (36612505 / 10000 : ℚ) = 1 := by norm_num [ts_secs, pymod]
  have h4 : ts_millis (36612505 / 10000 : ℚ) = 250 := by norm_num [ts_millis, pymod]
  rw [format_timestamp, h1, h2, h3, h4]
  rfl

theorem fmt_day_comma : format_timestamp 90000 true = "25:00:00,000" := by
  have h1 : ts_hours (90000 : ℚ) = 25 := by norm_num [ts_hours]
  have h2 : ts_minutes (90000 : ℚ) = 0 := by norm_num [ts_minutes, pymod]
  have h3 : ts_secs (90000 : ℚ) = 0 := by norm_num [ts_secs, pymod]
  have h4 : ts_millis (90000 : ℚ) = 0 := by norm_num [ts_millis, pymod]
  rw [format_timestamp, h1, h2, h3, h4]
  rfl

theorem fmt_zero_comma : format_timestamp 0 true = "00:00:00,000" := by
  have h1 : ts_hours (0 : ℚ) = 0 := by norm_num [ts_hours]
  have h2 : ts_minutes (0 : ℚ) = 0 := by norm_num [ts_minutes, pymod]
  have h3 : ts_secs (0 : ℚ) = 0 := by norm_num [ts_secs, pymod]
  have h4 : ts_millis (0 : ℚ) = 0 := by norm_num [ts_millis, pymod]
  rw [format_timestamp, h1, h2, h3, h4]
  rfl

theorem fmt_threehalf_comma : format_timestamp (3 / 2 : ℚ) true = "00:00:01,500" := by
  have h1 : ts_hours (3 / 2 : ℚ) = 0 := by norm_num [ts_hours]
  have h2 : ts_minutes (3 / 2 : ℚ) = 0 := by norm_num [ts_minutes, pymod]
  have h3 : ts_secs (3 / 2 : ℚ) = 1 := by norm_num [ts_secs, pymod]
  have h4 : ts_millis (3 / 2 : ℚ) = 500 := by norm_num [ts_millis, pymod]
  rw [format_timestamp, h1, h2, h3, h4]
  rfl

theorem fmt_zero_period : format_timestamp 0 false = "00:00:00.000" := by
  have h1 : ts_hours (0 : ℚ) = 0 := by norm_num [ts_hours]
  have h2 : ts_minutes (0 : ℚ) = 0 := by norm_num [ts_minutes, pymod]
  have h3 : ts_secs (0 : ℚ) = 0 := by norm_num [ts_secs, pymod]
  have h4 : ts_millis (0 : ℚ) = 0 := by norm_num [ts_millis, pymod]
  rw [format_timestamp, h1, h2, h3, h4]
  rfl

theorem fmt_threehalf_period : format_timestamp (3 / 2 : ℚ) false = "00:00:01.500" := by
  have h1 : ts_hours (3 / 2 : ℚ) = 0 := by norm_num [ts_hours]
  have h2 : ts_minutes (3 / 2 : ℚ) = 0 := by norm_num [ts_minutes, pymod]
  have h3 : ts_secs (3 / 2 : ℚ) = 1 := by norm_num [ts_secs, pymod]
  have h4 : ts_millis (3 / 2 : ℚ) = 500 := by norm_num [ts_millis, pymod]
  rw [format_timestamp, h1, h2, h3, h4]
  rfl

/-! ### C4 -/

/-- C4: for every non-negative seconds value and both separator modes,
`_format_timestamp` returns `HH:MM:SS<sep>mmm` with hours unbounded (a
25-hour input shows no clamping), minutes and seconds zero-padded to two
digits, milliseconds zero-padded to three digits and truncated (floored)
from the fractional part; `format(3661.2505)` with the comma separator
gives `01:01:01,250`. -/
theorem format_timestamp_shape (q : ℚ) (mode : Bool) (_hq : 0 ≤ q) :
    format_timestamp q mode
        = pad2 (ts_hours q).toNat ++ ":" ++ pad2 (ts_minutes q).toNat ++ ":"
            ++ pad2 (ts_secs q).toNat ++ (if mode then "," else ".")
            ++ pad3 (ts_millis q).toNat
      ∧ (ts_minutes q).toNat < 60 ∧ (ts_secs q).toNat < 60 ∧ (ts_millis q).toNat < 1000
      ∧ (pad2 (ts_minutes q).toNat).length = 2
      ∧ (pad2 (ts_secs q).toNat).length = 2
      ∧ (pad3 (ts_millis q).toNat).length = 3
      ∧ ts_millis q = ⌊(q - ⌊q⌋) * 1000⌋
      ∧ format_timestamp (36612505 / 10000 : ℚ) true = "01:01:01,250"
      ∧ format_timestamp 90000 true = "25:00:00,000" := by
  have hm := ts_minutes_lt q
  have hs := ts_secs_lt q
  have hms := ts_millis_lt q
  have hmn : (ts_minutes q).toNat < 60 := by omega
  have hsn : (ts_secs q).toNat < 60 := by omega
  have hmsn : (ts_millis q).toNat < 1000 := by omega
  refine ⟨rfl, hmn, hsn, hmsn, ?_, ?_, ?_, ?_, fmt_ex_comma, fmt_day_comma⟩
  · exact pad2_length _ (by omega)
  · exact pad2_length _ (by omega)
  · exact pad3_length _ hmsn
  · unfold ts_millis pymod
    norm_num

/-- Witness for C4 at seconds `3661.2505`, comma mode. -/
theorem format_timestamp_shape_witness :
    (0 : ℚ) ≤ 36612505 / 10000
      ∧ format_timestamp (36612505 / 10000 : ℚ) true = "01:01:01,250" :=
  ⟨by norm_num,
    (format_timestamp_shape (36612505 / 10000 : ℚ) true (by norm_num)).2.2.2.2.2.2.2.2.1⟩

/-! ### C5 -/

/-- C5: `_write_srt` emits, for each segment in order, a 1-based index
line, a comma-dialect `start --> end` timestamp line, the stripped
segment text and a blank separator line; on the single segment
`(0.0, 1.5, " hello ")` it produces exactly
`1\n00:00:00,000 --> 00:00:01,500\nhello\n\n`. -/
theorem write_srt_blocks :
    (∀ result : TranscriptionResult, write_srt result = srt_cues 1 result.segments)
      ∧ write_srt ⟨"", [⟨0, 3 / 2, " hello ", []⟩]⟩
          = "1\n00:00:00,000 --> 00:00:01,500\nhello\n\n" := by
  have key : ∀ (segs : List Segment) (i : Nat) (acc : String),
      (segs.foldl (fun (st : Nat × String) seg =>
          (st.1 + 1,
            st.2 ++ (toString st.1 ++ "\n" ++ format_timestamp seg.start true ++ " --> "
              ++ format_timestamp seg.stop true ++ "\n" ++ pyStrip seg.text ++ "\n\n")))
        (i, acc)).2 = acc ++ srt_cues i segs := by
    intro segs
    induction segs with
    | nil => intro i acc; simp [srt_cues, String.append_empty]
    | cons seg rest ih =>
      intro i acc
      simp only [List.foldl_cons]
      rw [ih, srt_cues, srt_cue, String.append_assoc]
  constructor
  · intro result
    unfold write_srt
    rw [key result.segments 1 "", String.empty_append]
  · unfold write_srt
    rw [key [⟨0, 3 / 2, " hello ", []⟩] 1 "", String.empty_append]
    show srt_cue 1 ⟨0, 3 / 2, " hello ", []⟩ ++ srt_cues 2 [] = _
    rw [srt_cue]
    show (1 : Nat).repr ++ "\n" ++ format_timestamp 0 true ++ " --> "
        ++ format_timestamp (3 / 2) true ++ "\n" ++ pyStrip " hello " ++ "\n\n"
        ++ srt_cues 2 [] = _
    rw [fmt_zero_comma, fmt_threehalf_comma]
    rfl

/-! ### Structure of the WebVTT exporter -/

theorem write_vtt_eq (result : TranscriptionResult) (lms : LmsSettings) :
    write_vtt result lms
      = "WEBVTT\n" ++ vtt_style_block lms ++ "\n"
          ++ vtt_cues (vtt_cue_suffix lms) result.segments := by
  have key : ∀ (segs : List Segment) (cue acc : String),
      (segs.foldl (fun acc seg =>
        acc ++ (format_timestamp seg.start false ++ " --> " ++ format_timestamp seg.stop false
          ++ cue ++ "\n" ++ pyStrip seg.text ++ "\n\n")) acc)
        = acc ++ vtt_cues cue segs := by
    intro segs
    induction segs with
    | nil => intro cue acc; simp [vtt_cues, String.append_empty]
    | cons seg rest ih =>
      intro cue acc
      simp only [List.foldl_cons]
      rw [ih, vtt_cues, vtt_cue_block, String.append_assoc]
  unfold write_vtt vtt_style_block vtt_cue_suffix
  by_cases he : lms.enabled = true <;> by_cases hcss : pyStrip lms.css = "" <;>
      by_cases hcue : pyStrip lms.cue_settings = "" <;>
    simp only [he, hcss, hcue, ne_eq, not_true_eq_false, not_false_eq_true, and_true,
      and_false, false_and, true_and, if_true, if_false, ite_true, ite_false,
      ite_self, not_not] <;>
    rw [key] <;> simp [String.append_empty]

/-! ### C6 -/

/-- C6 counterexample: with styling enabled and the configured style text
`" "` (non-empty), the exporter emits no style-block section at all — the
whole output is the bare header, and the word `STYLE` does not occur. -/
theorem vtt_whitespace_css_no_style_block :
    (⟨true, "", " "⟩ : LmsSettings).enabled = true
      ∧ (⟨true, "", " "⟩ : LmsSettings).css ≠ ""
      ∧ write_vtt ⟨"", []⟩ ⟨true, "", " "⟩ = "WEBVTT\n\n"
      ∧ containsSubstr (write_vtt ⟨"", []⟩ ⟨true, "", " "⟩) "STYLE" = false := by
  refine ⟨rfl, by decide, by decide, by decide⟩

/-- C6 (amended): the exporter emits a style-block section if and only if
styling is enabled and the configured style text is non-empty after
stripping surrounding whitespace, and that section carries the stripped
style text verbatim; otherwise the style section is empty. -/
theorem vtt_style_block_iff (result : TranscriptionResult) (lms : LmsSettings) :
    write_vtt result lms
        = "WEBVTT\n" ++ vtt_style_block lms ++ "\n"
            ++ vtt_cues (vtt_cue_suffix lms) result.segments
      ∧ (vtt_style_block lms = "" ↔ ¬(lms.enabled = true ∧ pyStrip lms.css ≠ ""))
      ∧ (lms.enabled = true ∧ pyStrip lms.css ≠ "" →
          vtt_style_block lms = "\nSTYLE\n" ++ pyStrip lms.css ++ "\n") := by
  refine ⟨write_vtt_eq result lms, ⟨?_, ?_⟩, ?_⟩
  · intro hb hcond
    rw [vtt_style_block, if_pos hcond] at hb
    have hdata : ("\nSTYLE\n" ++ pyStrip lms.css ++ "\n").data ≠ [] := by
      simp [String.data_append]
    exact hdata (by rw [hb])
  · intro hn
    rw [vtt_style_block, if_neg hn]
  · intro hcond
    rw [vtt_style_block, if_pos hcond]

/-- Witness for C6: styling enabled with style text `"x"`. -/
theorem vtt_style_block_iff_witness :
    write_vtt ⟨"", []⟩ ⟨true, "", "x"⟩
        = "WEBVTT\n" ++ vtt_style_block ⟨true, "", "x"⟩ ++ "\n"
            ++ vtt_cues (vtt_cue_suffix ⟨true, "", "x"⟩) []
      ∧ vtt_style_block ⟨true, "", "x"⟩ = "\nSTYLE\n" ++ pyStrip "x" ++ "\n" :=
  ⟨(vtt_style_block_iff ⟨"", []⟩ ⟨true, "", "x"⟩).1,
    (vtt_style_block_iff ⟨"", []⟩ ⟨true, "", "x"⟩).2.2 ⟨rfl, by decide⟩⟩

/-! ### C7 -/

/-- C7 counterexample: with styling enabled and the non-empty
cue-positioning directive `" "`, the timestamp line gets no suffix at all
— in particular not the single space plus the directive the claim
predicts. -/
theorem vtt_whitespace_cue_no_suffix :
    (⟨true, " ", ""⟩ : LmsSettings).enabled = true
      ∧ (⟨true, " ", ""⟩ : LmsSettings).cue_settings ≠ ""
      ∧ write_vtt ⟨"", [⟨0, 3 / 2, "hi", []⟩]⟩ ⟨true, " ", ""⟩
          = "WEBVTT\n\n00:00:00.000 --> 00:00:01.500\nhi\n\n"
      ∧ write_vtt ⟨"", [⟨0, 3 / 2, "hi", []⟩]⟩ ⟨true, " ", ""⟩
          ≠ "WEBVTT\n\n00:00:00.000 --> 00:00:01.500 " ++ " " ++ "\nhi\n\n" := by
  have hval : write_vtt ⟨"", [⟨0, 3 / 2, "hi", []⟩]⟩ ⟨true, " ", ""⟩
      = "WEBVTT\n\n00:00:00.000 --> 00:00:01.500\nhi\n\n" := by
    rw [write_vtt_eq]
    show "WEBVTT\n" ++ vtt_style_block _ ++ "\n"
        ++ vtt_cues (vtt_cue_suffix _) [⟨0, 3 / 2, "hi", []⟩] = _
    rw [show vtt_style_block ⟨true, " ", ""⟩ = "" from rfl,
      show vtt_cue_suffix ⟨true, " ", ""⟩ = "" from rfl,
      vtt_cues, vtt_cue_block, fmt_zero_period, fmt_threehalf_period]
    rfl
  exact ⟨rfl, by decide, hval, by rw [hval]; decide⟩

/-- C7 (amended): when styling is enabled and the cue directive is
non-empty after stripping surrounding whitespace, every timestamp line is
suffixed with exactly one leading space followed by the stripped
directive; when styling is disabled or the stripped directive is empty,
nothing is appended to any timestamp line. -/
theorem vtt_cue_suffix_spec (result : TranscriptionResult) (lms : LmsSettings) :
    (lms.enabled = true ∧ pyStrip lms.cue_settings ≠ "" →
        vtt_cue_suffix lms = " " ++ pyStrip lms.cue_settings
        ∧ write_vtt result lms
            = "WEBVTT\n" ++ vtt_style_block lms ++ "\n"
                ++ vtt_cues (" " ++ pyStrip lms.cue_settings) result.segments)
      ∧ (¬(lms.enabled = true ∧ pyStrip lms.cue_settings ≠ "") →
        vtt_cue_suffix lms = ""
        ∧ write_vtt result lms
            = "WEBVTT\n" ++ vtt_style_block lms ++ "\n" ++ vtt_cues "" result.segments) := by
  constructor
  · intro hcond
    have hsfx : vtt_cue_suffix lms = " " ++ pyStrip lms.cue_settings := by
      rw [vtt_cue_suffix, if_pos hcond]
    exact ⟨hsfx, by rw [write_vtt_eq, hsfx]⟩
  · intro hn
    have hsfx : vtt_cue_suffix lms = "" := by
      rw [vtt_cue_suffix, if_neg hn]
    exact ⟨hsfx, by rw [write_vtt_eq, hsfx]⟩

/-- Witness for C7: enabled styling with directive `" x "`. -/
theorem vtt_cue_suffix_spec_witness :
    vtt_cue_suffix ⟨true, " x ", ""⟩ = " " ++ pyStrip " x "
      ∧ write_vtt ⟨"", []⟩ ⟨true, " x ", ""⟩
          = "WEBVTT\n" ++ vtt_style_block ⟨true, " x ", ""⟩ ++ "\n"
              ++ vtt_cues (" " ++ pyStrip " x ") [] :=
  (vtt_cue_suffix_spec ⟨"", []⟩ ⟨true, " x ", ""⟩).1 ⟨rfl, by decide⟩

/-! ### C9 -/

/-- C9: the structured-data export serializes the complete raw inference
result (modelled as the JSON tree `json.dump` writes with `indent=2,
ensure_ascii=False`), and deserializing it yields the original full
transcript text and the same number of segments with matching
`start`/`end`/`text` fields. -/
theorem json_roundtrip (r : TranscriptionResult) :
    decodeResult (encodeResult r)
        = some (r.text, r.segments.map fun s => (s.start, s.stop, s.text))
      ∧ (r.segments.map fun s => (s.start, s.stop, s.text)).length
          = r.segments.length := by
  have hseg : ∀ seg : Segment,
      decodeSegment (encodeSegment seg) = some (seg.start, seg.stop, seg.text) :=
    fun _ => rfl
  have hsegs : ∀ segs : List Segment,
      decodeSegments (segs.map encodeSegment)
        = some (segs.map fun s => (s.start, s.stop, s.text)) := by
    intro segs
    induction segs with
    | nil => rfl
    | cons s rest ih =>
      simp only [List.map_cons, decodeSegments, hseg s, ih]
  refine ⟨?_, List.length_map _ _⟩
  show decodeResult (.obj [("text", .str r.text),
      ("segments", .arr (r.segments.map encodeSegment))]) = _
  have h1 : jLookup [("text", JsonVal.str r.text),
      ("segments", JsonVal.arr (r.segments.map encodeSegment))] "text"
      = some (JsonVal.str r.text) := by
    simp [jLookup]
  have h2 : jLookup [("text", JsonVal.str r.text),
      ("segments", JsonVal.arr (r.segments.map encodeSegment))] "segments"
      = some (JsonVal.arr (r.segments.map encodeSegment)) := by
    simp [jLookup]
  simp only [decodeResult, h1, h2, hsegs r.segments]

/-! ### The percentages of an event list -/

@[simp] theorem pcts_nil : pcts [] = [] := rfl

@[simp] theorem pcts_cons_progress (m : String) (p : ℤ) (t : List Event) :
    pcts (.progress m p :: t) = p :: pcts t := rfl

@[simp] theorem pcts_cons_finished (l : List String) (t : List Event) :
    pcts (.finished l :: t) = pcts t := rfl

@[simp] theorem pcts_cons_error (m : String) (t : List Event) :
    pcts (.error m :: t) = pcts t := rfl

@[simp] theorem pcts_append (l₁ l₂ : List Event) :
    pcts (l₁ ++ l₂) = pcts l₁ ++ pcts l₂ :=
  List.filterMap_append l₁ l₂ _

/-! ### Characterization of the branches of `run` -/

theorem attemptLoad_of_ok (load : Bool → Except PyErr Unit)
    (h : load false = Except.ok ()) : attemptLoad load = ([false], Except.ok ()) := by
  unfold attemptLoad
  rw [h]

theorem run_cancel0 (ctx : Ctx) (load : Bool → Except PyErr Unit)
    (tr : Except PyErr TranscriptionResult) (cancel : Nat → Bool)
    (h0 : cancel 0 = true) : run ctx load tr cancel = ⟨[], 1⟩ := by
  unfold run
  rw [if_pos h0]

theorem run_loadErr_cancel1 (ctx : Ctx) (load : Bool → Except PyErr Unit)
    (tr : Except PyErr TranscriptionResult) (cancel : Nat → Bool) (e : PyErr)
    (h0 : cancel 0 = false) (hAL : (attemptLoad load).2 = Except.error e)
    (h1 : cancel 1 = true) : run ctx load tr cancel = ⟨[loadingEvent ctx], 2⟩ := by
  unfold run
  simp only [h0, hAL, h1, Bool.false_eq_true, if_false, if_true]

theorem run_loadErr (ctx : Ctx) (load : Bool → Except PyErr Unit)
    (tr : Except PyErr TranscriptionResult) (cancel : Nat → Bool) (e : PyErr)
    (h0 : cancel 0 = false) (hAL : (attemptLoad load).2 = Except.error e)
    (h1 : cancel 1 = false) :
    run ctx load tr cancel = ⟨[loadingEvent ctx, Event.error (classifyError e)], 2⟩ := by
  unfold run
  simp only [h0, hAL, h1, Bool.false_eq_true, if_false]

theorem run_loadOk_cancel1 (ctx : Ctx) (load : Bool → Except PyErr Unit)
    (tr : Except PyErr TranscriptionResult) (cancel : Nat → Bool)
    (h0 : cancel 0 = false) (hAL : (attemptLoad load).2 = Except.ok ())
    (h1 : cancel 1 = true) : run ctx load tr cancel = ⟨[loadingEvent ctx], 2⟩ := by
  unfold run
  simp only [h0, hAL, h1, Bool.false_eq_true, if_false, if_true]

theorem run_trErr_cancel2 (ctx : Ctx) (load : Bool → Except PyErr Unit)
    (tr : Except PyErr TranscriptionResult) (cancel : Nat → Bool) (e : PyErr)
    (h0 : cancel 0 = false) (hAL : (attemptLoad load).2 = Except.ok ())
    (h1 : cancel 1 = false) (htr : tr = Except.error e)
    (h2 : cancel 2 = true) : run ctx load tr cancel = ⟨preEvents ctx, 3⟩ := by
  unfold run
  simp only [h0, hAL, h1, htr, h2, Bool.false_eq_true, if_false, if_true]

theorem run_trErr (ctx : Ctx) (load : Bool → Except PyErr Unit)
    (tr : Except PyErr TranscriptionResult) (cancel : Nat → Bool) (e : PyErr)
    (h0 : cancel 0 = false) (hAL : (attemptLoad load).2 = Except.ok ())
    (h1 : cancel 1 = false) (htr : tr = Except.error e)
    (h2 : cancel 2 = false) :
    run ctx load tr cancel = ⟨preEvents ctx ++ [Event.error (classifyError e)], 3⟩ := by
  unfold run
  simp only [h0, hAL, h1, htr, h2, Bool.false_eq_true, if_false]

theorem run_trOk_cancel2 (ctx : Ctx) (load : Bool → Except PyErr Unit)
    (tr : Except PyErr TranscriptionResult) (cancel : Nat → Bool)
    (result : TranscriptionResult)
    (h0 : cancel 0 = false) (hAL : (attemptLoad load).2 = Except.ok ())
    (h1 : cancel 1 = false) (htr : tr = Except.ok result)
    (h2 : cancel 2 = true) : run ctx load tr cancel = ⟨preEvents ctx, 3⟩ := by
  unfold run
  simp only [h0, hAL, h1, htr, h2, Bool.false_eq_true, if_false, if_true]

theorem run_success (ctx : Ctx) (load : Bool → Except PyErr Unit)
    (tr : Except PyErr TranscriptionResult) (cancel : Nat → Bool)
    (result : TranscriptionResult)
    (h0 : cancel 0 = false) (hAL : (attemptLoad load).2 = Except.ok ())
    (h1 : cancel 1 = false) (htr : tr = Except.ok result)
    (h2 : cancel 2 = false) :
    run ctx load tr cancel
      = (if (loopOf ctx cancel).stopped = true then
          ⟨(loopOf ctx cancel).events, (loopOf ctx cancel).reads⟩
        else if cancel (loopOf ctx cancel).reads = true then
          ⟨(loopOf ctx cancel).events, (loopOf ctx cancel).reads + 1⟩
        else
          ⟨(loopOf ctx cancel).events ++ [Event.finished (loopOf ctx cancel).created],
            (loopOf ctx cancel).reads + 1⟩) := by
  unfold run
  simp only [h0, hAL, h1, htr, h2, Bool.false_eq_true, if_false]

/-! ### C1 -/

/-- C1: a certificate-trust failure on the first model-load attempt
triggers exactly one retry, with certificate verification relaxed only on
that retry (`attemptLoad` records the attempt list `[false, true]`); any
failure of the retry is not retried again and yields exactly one Failed
event; every non-trust failure during model load is never retried and
also yields exactly one Failed event. -/
theorem cert_retry_once (ctx : Ctx) (load : Bool → Except PyErr Unit)
    (tr : Except PyErr TranscriptionResult) (cancel : Nat → Bool) (e : PyErr)
    (h0 : cancel 0 = false) (h1 : cancel 1 = false)
    (hload : load false = Except.error e) :
    (isTrustFailure e = true →
        (attemptLoad load).1 = [false, true]
        ∧ ∀ e2 : PyErr, load true = Except.error e2 →
            (run ctx load tr cancel).events
              = [loadingEvent ctx, Event.error (classifyError e2)])
      ∧ (isTrustFailure e = false →
        (attemptLoad load).1 = [false]
        ∧ (run ctx load tr cancel).events
            = [loadingEvent ctx, Event.error (classifyError e)]) := by
  constructor
  · intro htrust
    constructor
    · unfold attemptLoad
      simp only [hload]
      rw [if_pos htrust]
      rcases load true with e2 | u <;> rfl
    · intro e2 h2
      have hAL : (attemptLoad load).2 = Except.error e2 := by
        unfold attemptLoad
        simp only [hload]
        rw [if_pos htrust, h2]
      rw [run_loadErr ctx load tr cancel e2 h0 hAL h1]
  · intro hfalse
    have hnt : ¬ isTrustFailure e = true := by rw [hfalse]; exact Bool.false_ne_true
    constructor
    · unfold attemptLoad
      simp only [hload]
      rw [if_neg hnt]
    · have hAL : (attemptLoad load).2 = Except.error e := by
        unfold attemptLoad
        simp only [hload]
        rw [if_neg hnt]
      rw [run_loadErr ctx load tr cancel e h0 hAL h1]

/-- Witness for C1: both load attempts fail with trust-chain errors. -/
theorem cert_retry_once_witness :
    (attemptLoad loadTrustFail).1 = [false, true]
      ∧ (run ctxTxt loadTrustFail trErr cancelNone).events
          = [loadingEvent ctxTxt,
             Event.error (classifyError ⟨.urlError, "CERTIFICATE_VERIFY_FAILED retry"⟩)] := by
  have h := cert_retry_once ctxTxt loadTrustFail trErr cancelNone certErr rfl rfl rfl
  have ht : isTrustFailure certErr = true := by decide
  exact ⟨(h.1 ht).1, (h.1 ht).2 ⟨.urlError, "CERTIFICATE_VERIFY_FAILED retry"⟩ rfl⟩

/-! ### The output-writing loop under cancellation -/

theorem writeLoop_countP (ctx : Ctx) (cancel : Nat → Bool) :
    ∀ (fs : List OutFormat) (k : Nat) (ppf cur : ℚ) (created : List String)
      (evs : List Event),
      ((writeLoop ctx cancel fs k ppf cur created evs).events).countP (fun e => isTerminal e)
        = evs.countP (fun e => isTerminal e) := by
  intro fs
  induction fs with
  | nil => intro k ppf cur created evs; rfl
  | cons f rest ih =>
    intro k ppf cur created evs
    unfold writeLoop
    by_cases hmem : f.key ∈ ctx.output_formats
    · rw [if_pos hmem]
      by_cases hc : cancel k = true
      · rw [if_pos hc]
      · rw [if_neg hc, ih]
        simp [List.countP_append, isTerminal]
    · rw [if_neg hmem, ih]

theorem writeLoop_halt (ctx : Ctx) (cancel : Nat → Bool) :
    ∀ (fs : List OutFormat) (k : Nat) (ppf cur : ℚ) (created : List String)
      (evs : List Event) (j : Nat),
      k ≤ j → j < (writeLoop ctx cancel fs k ppf cur created evs).reads →
      cancel j = true →
      (writeLoop ctx cancel fs k ppf cur created evs).stopped = true
        ∧ (writeLoop ctx cancel fs k ppf cur created evs).reads = j + 1 := by
  intro fs
  induction fs with
  | nil =>
    intro k ppf cur created evs j hkj hlt _
    simp only [writeLoop] at hlt
    omega
  | cons f rest ih =>
    intro k ppf cur created evs j hkj hlt hcj
    unfold writeLoop at hlt ⊢
    by_cases hmem : f.key ∈ ctx.output_formats
    · rw [if_pos hmem] at hlt ⊢
      by_cases hc : cancel k = true
      · rw [if_pos hc] at hlt ⊢
        have hj : j = k := by simp only [] at hlt; omega
        exact ⟨rfl, by simp [hj]⟩
      · rw [if_neg hc] at hlt ⊢
        have hne : ¬ j = k := fun h => hc (h ▸ hcj)
        exact ih (k + 1) ppf (cur + ppf) _ _ j (by omega) hlt hcj
    · rw [if_neg hmem] at hlt ⊢
      exact ih k ppf cur created evs j hkj hlt hcj

theorem writeLoop_reads_ge (ctx : Ctx) (cancel : Nat → Bool) :
    ∀ (fs : List OutFormat) (k : Nat) (ppf cur : ℚ) (created : List String)
      (evs : List Event),
      k ≤ (writeLoop ctx cancel fs k ppf cur created evs).reads := by
  intro fs
  induction fs with
  | nil => intro k ppf cur created evs; simp [writeLoop]
  | cons f rest ih =>
    intro k ppf cur created evs
    unfold writeLoop
    by_cases hmem : f.key ∈ ctx.output_formats
    · rw [if_pos hmem]
      by_cases hc : cancel k = true
      · rw [if_pos hc]; simp
      · rw [if_neg hc]
        exact le_trans (by omega) (ih (k + 1) ppf (cur + ppf) _ _)
    · rw [if_neg hmem]; exact ih k ppf cur created evs

/-! ### C3 -/

/-- C3: once any read of the cancellation flag observes it set, the run
halts at that read (it is the last read performed) and the whole event
list contains zero terminal events — no Completed and no Failed event is
ever emitted for a cancelled job; in particular, cancelling after the
model loaded but before inference starts leaves exactly the one pre-load
Progress event and nothing else. -/
theorem cancel_suppresses_events (ctx : Ctx) (load : Bool → Except PyErr Unit)
    (tr : Except PyErr TranscriptionResult) (cancel : Nat → Bool) :
    (∀ k, k < (run ctx load tr cancel).reads → cancel k = true →
        (run ctx load tr cancel).events.countP (fun e => isTerminal e) = 0
        ∧ (run ctx load tr cancel).reads = k + 1)
      ∧ (load false = Except.ok () → cancel 0 = false → cancel 1 = true →
        (run ctx load tr cancel).events = [loadingEvent ctx]) := by
  constructor
  · intro k hk hck
    by_cases h0 : cancel 0 = true
    · rw [run_cancel0 ctx load tr cancel h0] at hk ⊢
      refine ⟨rfl, ?_⟩
      simp only [] at hk ⊢
      omega
    · have h0f : cancel 0 = false := by revert h0; cases cancel 0 <;> simp
      have hk0 : ¬ k = 0 := fun h => h0 (h ▸ hck)
      rcases hAL : (attemptLoad load).2 with e | u
      · by_cases h1 : cancel 1 = true
        · rw [run_loadErr_cancel1 ctx load tr cancel e h0f hAL h1] at hk ⊢
          have hk1 : k = 1 := by simp only [] at hk; omega
          refine ⟨by simp [loadingEvent, isTerminal], by simp [hk1]⟩
        · have h1f : cancel 1 = false := by revert h1; cases cancel 1 <;> simp
          have hk1 : ¬ k = 1 := fun h => h1 (h ▸ hck)
          rw [run_loadErr ctx load tr cancel e h0f hAL h1f] at hk
          simp only [] at hk
          omega
      · cases u
        by_cases h1 : cancel 1 = true
        · rw [run_loadOk_cancel1 ctx load tr cancel h0f hAL h1] at hk ⊢
          have hk1 : k = 1 := by simp only [] at hk; omega
          refine ⟨by simp [loadingEvent, isTerminal], by simp [hk1]⟩
        · have h1f : cancel 1 = false := by revert h1; cases cancel 1 <;> simp
          have hk1 : ¬ k = 1 := fun h => h1 (h ▸ hck)
          rcases tr with e | result
          · by_cases h2 : cancel 2 = true
            · rw [run_trErr_cancel2 ctx load (Except.error e) cancel e h0f hAL h1f rfl h2] at hk ⊢
              have hk2 : k = 2 := by simp only [] at hk; omega
              refine ⟨by simp [preEvents, loadingEvent, isTerminal], by simp [hk2]⟩
            · have h2f : cancel 2 = false := by revert h2; cases cancel 2 <;> simp
              have hk2 : ¬ k = 2 := fun h => h2 (h ▸ hck)
              rw [run_trErr ctx load (Except.error e) cancel e h0f hAL h1f rfl h2f] at hk
              simp only [] at hk
              omega
          · by_cases h2 : cancel 2 = true
            · rw [run_trOk_cancel2 ctx load (Except.ok result) cancel result h0f hAL h1f rfl h2] at hk ⊢
              have hk2 : k = 2 := by simp only [] at hk; omega
              refine ⟨by simp [preEvents, loadingEvent, isTerminal], by simp [hk2]⟩
            · have h2f : cancel 2 = false := by revert h2; cases cancel 2 <;> simp
              have hk2 : ¬ k = 2 := fun h => h2 (h ▸ hck)
              have hk3 : 3 ≤ k := by omega
              rw [run_success ctx load (Except.ok result) cancel result h0f hAL h1f rfl h2f] at hk ⊢
              have hfree : (loopOf ctx cancel).events.countP (fun e => isTerminal e) = 0 := by
                unfold loopOf
                rw [writeLoop_countP]
                simp [preEvents, writingEvent, loadingEvent, isTerminal]
              by_cases hst : (loopOf ctx cancel).stopped = true
              · rw [if_pos hst] at hk ⊢
                simp only [] at hk
                have := writeLoop_halt ctx cancel formatOrder 3
                  (progress_per_format ctx.output_formats) 80 []
                  (preEvents ctx ++ [writingEvent]) k hk3 hk hck
                exact ⟨hfree, this.2⟩
              · rw [if_neg hst] at hk ⊢
                by_cases hcl : cancel (loopOf ctx cancel).reads = true
                · rw [if_pos hcl] at hk ⊢
                  simp only [] at hk
                  have hklt : k < (loopOf ctx cancel).reads ∨ k = (loopOf ctx cancel).reads := by
                    omega
                  rcases hklt with hlt | heq
                  · have := writeLoop_halt ctx cancel formatOrder 3
                      (progress_per_format ctx.output_formats) 80 []
                      (preEvents ctx ++ [writingEvent]) k hk3 hlt hck
                    exact absurd this.1 hst
                  · exact ⟨hfree, by rw [heq]⟩
                · rw [if_neg hcl] at hk ⊢
                  simp only [] at hk
                  have hklt : k < (loopOf ctx cancel).reads ∨ k = (loopOf ctx cancel).reads := by
                    omega
                  rcases hklt with hlt | heq
                  · have := writeLoop_halt ctx cancel formatOrder 3
                      (progress_per_format ctx.output_formats) 80 []
                      (preEvents ctx ++ [writingEvent]) k hk3 hlt hck
                    exact absurd this.1 hst
                  · exact absurd (heq ▸ hck) hcl
  · intro hl h0 h1
    have hAL : (attemptLoad load).2 = Except.ok () := by rw [attemptLoad_of_ok load hl]
    rw [run_loadOk_cancel1 ctx load tr cancel h0 hAL h1]

/-- Witness for C3: the flag becomes set at the read after the model
loads; only the pre-load Progress event is emitted and no terminal event
exists. -/
theorem cancel_suppresses_events_witness :
    (run ctxTxt loadOk trOk (cancelFrom 1)).events = [loadingEvent ctxTxt]
      ∧ (run ctxTxt loadOk trOk (cancelFrom 1)).events.countP (fun e => isTerminal e) = 0
      ∧ (run ctxTxt loadOk trOk (cancelFrom 1)).reads = 2 := by
  have h := cancel_suppresses_events ctxTxt loadOk trOk (cancelFrom 1)
  have hev := h.2 rfl rfl rfl
  have hrd : (run ctxTxt loadOk trOk (cancelFrom 1)).reads = 2 := by
    rw [run_loadOk_cancel1 ctxTxt loadOk trOk (cancelFrom 1) rfl
      (by rw [attemptLoad_of_ok loadOk rfl]) rfl]
  exact ⟨hev, (h.1 1 (by rw [hrd]; omega) rfl).1, hrd⟩

/-! ### The output-writing loop when never cancelled -/

theorem writeLoop_complete (ctx : Ctx) (cancel : Nat → Bool) (hc : ∀ i, cancel i = false) :
    ∀ (fs : List OutFormat) (k : Nat) (ppf cur : ℚ) (created : List String)
      (evs : List Event),
      (writeLoop ctx cancel fs k ppf cur created evs).stopped = false
      ∧ (writeLoop ctx cancel fs k ppf cur created evs).created
          = created ++ (fs.filter fun f =>
              decide (f.key ∈ ctx.output_formats)).map (fullPath ctx) := by
  intro fs
  induction fs with
  | nil => intro k ppf cur created evs; exact ⟨rfl, by simp [writeLoop]⟩
  | cons f rest ih =>
    intro k ppf cur created evs
    unfold writeLoop
    by_cases hmem : f.key ∈ ctx.output_formats
    · rw [if_pos hmem, if_neg (by simp [hc k])]
      refine ⟨(ih (k + 1) ppf (cur + ppf) _ _).1, ?_⟩
      rw [(ih (k + 1) ppf (cur + ppf) _ _).2]
      rw [List.filter_cons_of_pos (by simp [hmem])]
      simp
    · rw [if_neg hmem]
      refine ⟨(ih k ppf cur created evs).1, ?_⟩
      rw [(ih k ppf cur created evs).2]
      rw [List.filter_cons_of_neg (by simp [hmem])]

/-! ### C8 -/

/-- C8: for every requested-format set, a successful, uncancelled job
ends with a Completed event whose artifact list walks the fixed canonical
order txt, srt, vtt, html, md, json (filtered by membership in the
request, not by request order), each artifact named
`<stem>_transcript.<extension>` inside the destination directory; two
requests with the same member-set produce the same artifact list. -/
theorem canonical_order_and_naming (ctx : Ctx) (load : Bool → Except PyErr Unit)
    (tr : Except PyErr TranscriptionResult) (cancel : Nat → Bool)
    (result : TranscriptionResult)
    (hl : load false = Except.ok ()) (ht : tr = Except.ok result)
    (hc : ∀ i, cancel i = false) :
    (run ctx load tr cancel).events.getLast?
        = some (Event.finished ((formatOrder.filter fun f =>
            decide (f.key ∈ ctx.output_formats)).map (fullPath ctx)))
      ∧ ∀ fmts2 : List String, (∀ s, s ∈ fmts2 ↔ s ∈ ctx.output_formats) →
        (run { ctx with output_formats := fmts2 } load tr cancel).events.getLast?
          = (run ctx load tr cancel).events.getLast? := by
  have hAL : (attemptLoad load).2 = Except.ok () := by rw [attemptLoad_of_ok load hl]
  have main : ∀ ctx2 : Ctx, ctx2.model_name = ctx.model_name →
      ctx2.output_dir = ctx.output_dir → ctx2.base_path = ctx.base_path →
      (run ctx2 load tr cancel).events.getLast?
        = some (Event.finished ((formatOrder.filter fun f =>
            decide (f.key ∈ ctx2.output_formats)).map (fullPath ctx2))) := by
    intro ctx2 _ _ _
    have hloop := writeLoop_complete ctx2 cancel hc formatOrder 3
      (progress_per_format ctx2.output_formats) 80 [] (preEvents ctx2 ++ [writingEvent])
    rw [run_success ctx2 load tr cancel result (hc 0) hAL (hc 1) ht (hc 2)]
    rw [if_neg (by rw [show (loopOf ctx2 cancel).stopped = false from hloop.1]; simp)]
    rw [if_neg (by rw [hc (loopOf ctx2 cancel).reads]; simp)]
    show ((loopOf ctx2 cancel).events ++ [Event.finished (loopOf ctx2 cancel).created]).getLast?
      = _
    rw [List.getLast?_concat]
    rw [show (loopOf ctx2 cancel).created = _ from hloop.2]
    rw [List.nil_append]
  constructor
  · exact main ctx rfl rfl rfl
  · intro fmts2 hiff
    rw [main ctx rfl rfl rfl, main { ctx with output_formats := fmts2 } rfl rfl rfl]
    have hfil : (formatOrder.filter fun f => decide (f.key ∈ fmts2))
        = formatOrder.filter fun f => decide (f.key ∈ ctx.output_formats) :=
      List.filter_congr fun f _ => decide_eq_decide.mpr (hiff f.key)
    show some (Event.finished ((formatOrder.filter fun f =>
        decide (f.key ∈ fmts2)).map (fullPath { ctx with output_formats := fmts2 }))) = _
    rw [hfil]
    rfl

/-- Witness for C8: the request lists srt before txt, yet the artifact
list is in canonical order txt, srt. -/
theorem canonical_order_and_naming_witness :
    (run ctxTwo loadOk trOk cancelNone).events.getLast?
      = some (Event.finished ["/out/audio_transcript.txt", "/out/audio_transcript.srt"]) := by
  have h := (canonical_order_and_naming ctxTwo loadOk trOk cancelNone resultW rfl rfl
    (fun _ => rfl)).1
  rw [h]
  rfl

/-! ### C10 -/

theorem writeLoop_skip_all (ctx : Ctx) (cancel : Nat → Bool)
    (hf : ctx.output_formats = []) :
    ∀ (fs : List OutFormat) (k : Nat) (ppf cur : ℚ) (created : List String)
      (evs : List Event),
      writeLoop ctx cancel fs k ppf cur created evs = ⟨evs, created, k, false⟩ := by
  intro fs
  induction fs with
  | nil => intro k ppf cur created evs; rfl
  | cons f rest ih =>
    intro k ppf cur created evs
    unfold writeLoop
    rw [if_neg (by rw [hf]; exact List.not_mem_nil _)]
    exact ih k ppf cur created evs

/-- C10: with an empty requested-format list the per-format progress
increment is computed with the guarded fallback 15 instead of dividing by
zero, no format block runs, and the job still terminates with a Completed
event carrying an empty artifact list. -/
theorem empty_formats_safe (ctx : Ctx) (load : Bool → Except PyErr Unit)
    (tr : Except PyErr TranscriptionResult) (cancel : Nat → Bool)
    (result : TranscriptionResult)
    (hf : ctx.output_formats = []) (hl : load false = Except.ok ())
    (ht : tr = Except.ok result) (hc : ∀ i, cancel i = false) :
    progress_per_format ctx.output_formats = 15
      ∧ (run ctx load tr cancel).events
          = preEvents ctx ++ [writingEvent, Event.finished []] := by
  have hAL : (attemptLoad load).2 = Except.ok () := by rw [attemptLoad_of_ok load hl]
  have hloop : loopOf ctx cancel
      = ⟨preEvents ctx ++ [writingEvent], [], 3, false⟩ := by
    unfold loopOf
    exact writeLoop_skip_all ctx cancel hf formatOrder 3 _ 80 [] _
  constructor
  · rw [hf]
    rfl
  · rw [run_success ctx load tr cancel result (hc 0) hAL (hc 1) ht (hc 2)]
    rw [if_neg (by rw [hloop]; simp)]
    rw [if_neg (by rw [hc (loopOf ctx cancel).reads]; simp)]
    show (loopOf ctx cancel).events ++ [Event.finished (loopOf ctx cancel).created] = _
    rw [hloop]
    simp

/-- Witness for C10: a concrete empty-format job. -/
theorem empty_formats_safe_witness :
    progress_per_format ctxNone.output_formats = 15
      ∧ (run ctxNone loadOk trOk cancelNone).events
          = preEvents ctxNone ++ [writingEvent, Event.finished []] :=
  empty_formats_safe ctxNone loadOk trOk cancelNone resultW rfl rfl rfl (fun _ => rfl)

/-! ### Monotonicity and bounds of the progress percentages -/

theorem chain_le_snoc (l : List ℤ) (a : ℤ) (h : List.Chain' (· ≤ ·) l)
    (ha : ∀ p ∈ l, p ≤ a) : List.Chain' (· ≤ ·) (l ++ [a]) := by
  apply h.append (List.chain'_singleton a)
  intro x hx y hy
  have hy' : a = y := by simpa using hy
  subst hy'
  exact ha x (List.mem_of_mem_getLast? hx)

theorem ppf_nonneg (fmts : List String) : 0 ≤ progress_per_format fmts := by
  unfold progress_per_format
  split
  · positivity
  · norm_num

theorem formats_filter_le (ctx : Ctx) :
    ((formatOrder.filter fun f => decide (f.key ∈ ctx.output_formats)).length : ℚ)
        * progress_per_format ctx.output_formats ≤ 15 := by
  by_cases hn : ctx.output_formats = []
  · rw [hn]
    have hfil : (formatOrder.filter fun f => decide (f.key ∈ ([] : List String))) = [] := rfl
    rw [hfil]
    simp only [List.length_nil, Nat.cast_zero, zero_mul]
    norm_num
  · have hlen : 0 < ctx.output_formats.length := List.length_pos.mpr hn
    have hL : (formatOrder.filter fun f => decide (f.key ∈ ctx.output_formats)).length
        ≤ ctx.output_formats.length := by
      have h1 : List.Sublist
          ((formatOrder.filter fun f =>
            decide (f.key ∈ ctx.output_formats)).map OutFormat.key)
          (formatOrder.map OutFormat.key) :=
        (List.filter_sublist formatOrder).map OutFormat.key
      have h2 : ((formatOrder.filter fun f =>
          decide (f.key ∈ ctx.output_formats)).map OutFormat.key).Nodup :=
        h1.nodup (by decide)
      have h3 : ((formatOrder.filter fun f =>
          decide (f.key ∈ ctx.output_formats)).map OutFormat.key) ⊆ ctx.output_formats := by
        intro x hx
        simp only [List.mem_map, List.mem_filter] at hx
        obtain ⟨f, ⟨_, hf⟩, rfl⟩ := hx
        exact of_decide_eq_true hf
      have h4 := (h2.subperm h3).length_le
      rwa [List.length_map] at h4
    rw [progress_per_format, if_pos hlen]
    have hcast : ((formatOrder.filter fun f =>
        decide (f.key ∈ ctx.output_formats)).length : ℚ)
        ≤ (ctx.output_formats.length : ℚ) := by exact_mod_cast hL
    have hpos : (0:ℚ) < (ctx.output_formats.length : ℚ) := by exact_mod_cast hlen
    calc ((formatOrder.filter fun f =>
          decide (f.key ∈ ctx.output_formats)).length : ℚ)
          * (15 / (ctx.output_formats.length : ℚ))
        ≤ (ctx.output_formats.length : ℚ) * (15 / (ctx.output_formats.length : ℚ)) :=
          mul_le_mul_of_nonneg_right hcast (by positivity)
      _ = 15 := by field_simp

theorem writeLoop_pcts (ctx : Ctx) (cancel : Nat → Bool) :
    ∀ (fs : List OutFormat) (k : Nat) (ppf cur : ℚ) (created : List String)
      (evs : List Event),
      0 ≤ ppf → 80 ≤ cur →
      cur + ((fs.filter fun f => decide (f.key ∈ ctx.output_formats)).length : ℚ) * ppf
        ≤ 95 →
      List.Chain' (· ≤ ·) (pcts evs) →
      (∀ p ∈ pcts evs, 0 ≤ p ∧ p ≤ 100) →
      (∀ p ∈ pcts evs, (p : ℚ) ≤ cur) →
      List.Chain' (· ≤ ·) (pcts (writeLoop ctx cancel fs k ppf cur created evs).events)
        ∧ ∀ p ∈ pcts (writeLoop ctx cancel fs k ppf cur created evs).events,
            0 ≤ p ∧ p ≤ 100 := by
  intro fs
  induction fs with
  | nil =>
    intro k ppf cur created evs _ _ _ hch hbd _
    exact ⟨hch, hbd⟩
  | cons f rest ih =>
    intro k ppf cur created evs hppf hcur hbound hch hbd hle
    unfold writeLoop
    by_cases hmem : f.key ∈ ctx.output_formats
    · rw [if_pos hmem]
      rw [List.filter_cons_of_pos (by simp [hmem])] at hbound
      by_cases hcc : cancel k = true
      · rw [if_pos hcc]
        exact ⟨hch, hbd⟩
      · rw [if_neg hcc]
        have hLnn : (0:ℚ) ≤ ((rest.filter fun f =>
            decide (f.key ∈ ctx.output_formats)).length : ℚ) := by positivity
        have hbound' : cur + ppf
            + ((rest.filter fun f => decide (f.key ∈ ctx.output_formats)).length : ℚ) * ppf
            ≤ 95 := by
          rw [List.length_cons] at hbound
          push_cast at hbound
          ring_nf at hbound ⊢
          linarith
        have hLppf : (0:ℚ) ≤ ((rest.filter fun f =>
            decide (f.key ∈ ctx.output_formats)).length : ℚ) * ppf :=
          mul_nonneg hLnn hppf
        have hstep : cur + ppf ≤ 95 := by linarith
        have hfl_le : ((⌊cur + ppf⌋ : ℤ) : ℚ) ≤ cur + ppf := Int.floor_le _
        have hfl95 : ⌊cur + ppf⌋ ≤ 95 := by
          have h95 : ((⌊cur + ppf⌋ : ℤ) : ℚ) ≤ ((95 : ℤ) : ℚ) := by
            push_cast
            linarith
          exact_mod_cast h95
        have hflnn : 0 ≤ ⌊cur + ppf⌋ := Int.floor_nonneg.mpr (by linarith)
        apply ih (k + 1) ppf (cur + ppf) _ _ hppf (by linarith) hbound'
        · rw [pcts_append, pcts_cons_progress, pcts_nil]
          exact chain_le_snoc _ _ hch
            (fun p hp => Int.le_floor.mpr (le_trans (hle p hp) (by linarith)))
        · intro p hp
          rw [pcts_append, pcts_cons_progress, pcts_nil] at hp
          rcases List.mem_append.mp hp with h | h
          · exact hbd p h
          · have hpe : p = ⌊cur + ppf⌋ := by simpa using h
            subst hpe
            exact ⟨hflnn, by omega⟩
        · intro p hp
          rw [pcts_append, pcts_cons_progress, pcts_nil] at hp
          rcases List.mem_append.mp hp with h | h
          · exact le_trans (hle p h) (by linarith)
          · have hpe : p = ⌊cur + ppf⌋ := by simpa using h
            subst hpe
            exact hfl_le
    · rw [if_neg hmem]
      rw [List.filter_cons_of_neg (by simp [hmem])] at hbound
      exact ih k ppf cur created evs hppf hcur hbound hch hbd hle

/-! ### C2 -/

/-- C2: for every job, the percentages carried by the Progress events
form a non-decreasing sequence with every value in `[0, 100]`; when
exactly one output format is requested and the job succeeds uncancelled,
the final Progress event before the Completed event carries percentage
`95 = 80 + 15 / 1`. -/
theorem progress_monotone_bounded (ctx : Ctx) (load : Bool → Except PyErr Unit)
    (tr : Except PyErr TranscriptionResult) (cancel : Nat → Bool) :
    (List.Chain' (· ≤ ·) (pcts (run ctx load tr cancel).events)
      ∧ ∀ p ∈ pcts (run ctx load tr cancel).events, 0 ≤ p ∧ p ≤ 100)
      ∧ ∀ (result : TranscriptionResult) (f : OutFormat),
          load false = Except.ok () → tr = Except.ok result →
          (∀ i, cancel i = false) → ctx.output_formats = [OutFormat.key f] →
          (run ctx load tr cancel).events
            = preEvents ctx ++ [writingEvent,
                Event.progress ("Created " ++ pathName ctx f) 95,
                Event.finished [fullPath ctx f]] := by
  constructor
  · by_cases h0 : cancel 0 = true
    · rw [run_cancel0 ctx load tr cancel h0]
      exact ⟨List.chain'_nil, by intro p hp; simp at hp⟩
    · have h0f : cancel 0 = false := by revert h0; cases cancel 0 <;> simp
      rcases hAL : (attemptLoad load).2 with e | u
      · by_cases h1 : cancel 1 = true
        · rw [run_loadErr_cancel1 ctx load tr cancel e h0f hAL h1]
          exact ⟨List.chain'_singleton _, by
            show ∀ p ∈ ([5] : List ℤ), 0 ≤ p ∧ p ≤ 100
            decide⟩
        · have h1f : cancel 1 = false := by revert h1; cases cancel 1 <;> simp
          rw [run_loadErr ctx load tr cancel e h0f hAL h1f]
          exact ⟨List.chain'_singleton _, by
            show ∀ p ∈ ([5] : List ℤ), 0 ≤ p ∧ p ≤ 100
            decide⟩
      · cases u
        by_cases h1 : cancel 1 = true
        · rw [run_loadOk_cancel1 ctx load tr cancel h0f hAL h1]
          exact ⟨List.chain'_singleton _, by
            show ∀ p ∈ ([5] : List ℤ), 0 ≤ p ∧ p ≤ 100
            decide⟩
        · have h1f : cancel 1 = false := by revert h1; cases cancel 1 <;> simp
          rcases tr with e | result
          · by_cases h2 : cancel 2 = true
            · rw [run_trErr_cancel2 ctx load (Except.error e) cancel e h0f hAL h1f rfl h2]
              refine ⟨?_, ?_⟩
              · show List.Chain' (· ≤ ·) ([5, 10, 20] : List ℤ)
                simp [List.chain'_cons]
              · show ∀ p ∈ ([5, 10, 20] : List ℤ), 0 ≤ p ∧ p ≤ 100
                decide
            · have h2f : cancel 2 = false := by revert h2; cases cancel 2 <;> simp
              rw [run_trErr ctx load (Except.error e) cancel e h0f hAL h1f rfl h2f]
              refine ⟨?_, ?_⟩
              · show List.Chain' (· ≤ ·) ([5, 10, 20] : List ℤ)
                simp [List.chain'_cons]
              · show ∀ p ∈ ([5, 10, 20] : List ℤ), 0 ≤ p ∧ p ≤ 100
                decide
          · by_cases h2 : cancel 2 = true
            · rw [run_trOk_cancel2 ctx load (Except.ok result) cancel result h0f hAL h1f
                rfl h2]
              refine ⟨?_, ?_⟩
              · show List.Chain' (· ≤ ·) ([5, 10, 20] : List ℤ)
                simp [List.chain'_cons]
              · show ∀ p ∈ ([5, 10, 20] : List ℤ), 0 ≤ p ∧ p ≤ 100
                decide
            · have h2f : cancel 2 = false := by revert h2; cases cancel 2 <;> simp
              rw [run_success ctx load (Except.ok result) cancel result h0f hAL h1f
                rfl h2f]
              have hinv := writeLoop_pcts ctx cancel formatOrder 3
                (progress_per_format ctx.output_formats) 80 []
                (preEvents ctx ++ [writingEvent])
                (ppf_nonneg _) (by norm_num)
                (by have := formats_filter_le ctx; linarith)
                (by
                  show List.Chain' (· ≤ ·) ([5, 10, 20, 80] : List ℤ)
                  simp [List.chain'_cons])
                (by
                  show ∀ p ∈ ([5, 10, 20, 80] : List ℤ), 0 ≤ p ∧ p ≤ 100
                  decide)
                (by
                  show ∀ p ∈ ([5, 10, 20, 80] : List ℤ), ((p : ℚ) ≤ 80)
                  intro p hp
                  have hp' : p = 5 ∨ p = 10 ∨ p = 20 ∨ p = 80 := by
                    simpa using hp
                  rcases hp' with rfl | rfl | rfl | rfl <;> norm_num)
              by_cases hst : (loopOf ctx cancel).stopped = true
              · rw [if_pos hst]
                exact hinv
              · rw [if_neg hst]
                by_cases hcl : cancel (loopOf ctx cancel).reads = true
                · rw [if_pos hcl]
                  exact hinv
                · rw [if_neg hcl]
                  refine ⟨?_, ?_⟩
                  · rw [show pcts ((loopOf ctx cancel).events
                        ++ [Event.finished (loopOf ctx cancel).created])
                        = pcts (loopOf ctx cancel).events by
                      rw [pcts_append, pcts_cons_finished, pcts_nil, List.append_nil]]
                    exact hinv.1
                  · intro p hp
                    rw [pcts_append, pcts_cons_finished, pcts_nil, List.append_nil] at hp
                    exact hinv.2 p hp
  · intro result f hl ht hc hfmt
    have hAL : (attemptLoad load).2 = Except.ok () := by rw [attemptLoad_of_ok load hl]
    rw [run_success ctx load tr cancel result (hc 0) hAL (hc 1) ht (hc 2)]
    have h15 : progress_per_format ctx.output_formats = 15 := by
      rw [hfmt]
      norm_num [progress_per_format]
    have h95 : (⌊(80:ℚ) + 15⌋ : ℤ) = 95 := by norm_num
    have hloop : loopOf ctx cancel
        = ⟨preEvents ctx ++ [writingEvent,
            Event.progress ("Created " ++ pathName ctx f) 95],
           [fullPath ctx f], 4, false⟩ := by
      unfold loopOf
      rw [h15]
      cases f <;>
        simp [writeLoop, formatOrder, hfmt, hc, OutFormat.key, h95]
    rw [if_neg (by rw [hloop]; simp)]
    rw [if_neg (by rw [hc (loopOf ctx cancel).reads]; simp)]
    show (loopOf ctx cancel).events ++ [Event.finished (loopOf ctx cancel).created] = _
    rw [hloop]
    simp

/-- Witness for C2: a successful single-format job reaches 95 and then
completes. -/
theorem progress_monotone_bounded_witness :
    (run ctxTxt loadOk trOk cancelNone).events
      = preEvents ctxTxt ++ [writingEvent,
          Event.progress ("Created " ++ pathName ctxTxt OutFormat.txt) 95,
          Event.finished [fullPath ctxTxt OutFormat.txt]] :=
  (progress_monotone_bounded ctxTxt loadOk trOk cancelNone).2 resultW OutFormat.txt rfl rfl
    (fun _ => rfl) rfl

end Voxtext
